import Mathlib

/-!
Verification of the xpress symbolic-expression engine.

The source represents expressions as types: leaf symbols, integer value
constants (with `val<0>` the zero value and `val<1>` the unit value), and
`operation<Op, A, B>` composite nodes.  Operator factory functions
(`operator+` in add.hpp, `pow` in pow.hpp) apply construction-time
simplification before building a generic node.  We embed expressions as an
inductive tree with decidable structural equality (matching the source's
type identity) and translate each factory branch by branch.
-/

namespace Xpress

/-- Operator tags of the composite nodes appearing in the embedded fragment. -/
inductive Op where
  | add
  | mul
  | sub
  | div
  | pow
deriving DecidableEq, Repr

/-- Expression trees: named symbols (identified by a numeric tag), integer
value constants (`val 0` is the zero value, `val 1` the unit value), binary
operation nodes, and a unary logarithm node. -/
inductive Expr where
  | var : Nat → Expr
  | val : Int → Expr
  | binop : Op → Expr → Expr → Expr
  | log : Expr → Expr
deriving DecidableEq, Repr

/-- Modelled from the spec: the multiplication factory is not under src/
(only its callers in add.hpp and pow.hpp are).  Following §4.2's pattern
(identity/annihilator elimination checked first, generic node otherwise):
zero annihilates, unit is the identity. -/
def mulE (a b : Expr) : Expr :=
  if a = Expr.val 0 ∨ b = Expr.val 0 then Expr.val 0
  else if a = Expr.val 1 then b
  else if b = Expr.val 1 then a
  else Expr.binop Op.mul a b

/-- `operator+` from add.hpp: if the first operand is the zero value the
result is the second; if the second is zero the result is the first; if the
operands are structurally identical the result is `val 2 * a`; otherwise a
generic add node is built. -/
def addE (a b : Expr) : Expr :=
  if a = Expr.val 0 then b
  else if b = Expr.val 0 then a
  else if a = b then mulE (Expr.val 2) a
  else Expr.binop Op.add a b

/-- `pow` from pow.hpp: if the base is the zero value the result is
`val 0`; else if the base or the exponent is the unit value the result is
the base; else if the exponent is zero the result is `val 1`; otherwise a
generic pow node is built. -/
def powE (a b : Expr) : Expr :=
  if a = Expr.val 0 then Expr.val 0
  else if a = Expr.val 1 ∨ b = Expr.val 1 then a
  else if b = Expr.val 0 then Expr.val 1
  else Expr.binop Op.pow a b

/-- Modelled from the spec: the subtraction factory is not under src/ (the
pow derivative rule calls `T2{} - val<1>`).  Following §4.2's pattern,
subtracting the zero value is the identity. -/
def subE (a b : Expr) : Expr :=
  if b = Expr.val 0 then a
  else Expr.binop Op.sub a b

/-- Modelled from the spec: the division factory is not under src/; it only
arises here in the modelled derivative of a log node.  Dividing by the unit
value is the identity. -/
def divE (a b : Expr) : Expr :=
  if b = Expr.val 1 then a
  else Expr.binop Op.div a b

/-- Modelled from the spec: the `log` factory is not under src/ (the pow
derivative rule calls `log(T2{})`).  The spec names no simplification rule
for it, so a generic log node is always built. -/
def logE (a : Expr) : Expr := Expr.log a

/-- The differentiation engine (§4.3): structural recursion dispatching to
the operator-specific `derivative_of` rules.  The variable leaf, constant
leaf, add (add.hpp) and pow (pow.hpp) cases are translated from the source;
the mul, sub, div and log rules are modelled from the spec's chain-rule
composition pattern, since their sources are not under src/. -/
def deriv (e : Expr) (v : Nat) : Expr :=
  match e with
  | Expr.var n => if n = v then Expr.val 1 else Expr.val 0
  | Expr.val _ => Expr.val 0
  | Expr.binop Op.add a b => addE (deriv a v) (deriv b v)
  | Expr.binop Op.pow a b =>
      addE (mulE (mulE b (powE a (subE b (Expr.val 1)))) (deriv a v))
           (mulE (mulE (powE a b) (logE b)) (deriv b v))
  | Expr.binop Op.mul a b => addE (mulE (deriv a v) b) (mulE a (deriv b v))
  | Expr.binop Op.sub a b => subE (deriv a v) (deriv b v)
  | Expr.binop Op.div a b =>
      divE (subE (mulE (deriv a v) b) (mulE a (deriv b v))) (mulE b b)
  | Expr.log a => divE (deriv a v) a

/-- Modelled from the spec: `nodes_of_t` (expressions.hpp, not under src/)
measures the size of an expression; the pow stream rule parenthesizes the
exponent exactly when `nodes_of_t<T2>::size > 1`, i.e. when the exponent is
a multi-term expression rather than a single leaf.  A leaf counts one node;
a composite counts itself plus its children. -/
def nodeCount : Expr → Nat
  | Expr.var _ => 1
  | Expr.val _ => 1
  | Expr.binop _ a b => 1 + nodeCount a + nodeCount b
  | Expr.log a => 1 + nodeCount a

/-- Rendering (§4.4): each operator's stream trait.  The add case
(add.hpp) writes the left operand, then " + ", then the right operand; the
pow case (pow.hpp) writes the base, then the caret, then the exponent,
parenthesized exactly when the exponent has more than one node.  Variables
render as their symbolic name, supplied by the naming function `nm`;
constants render as their literal value.  The mul, sub, div and log
renderings are modelled from the spec (their sources are not under src/)
and are not the subject of any claim. -/
def render (nm : Nat → String) : Expr → String
  | Expr.var n => nm n
  | Expr.val c => toString c
  | Expr.binop Op.add a b => render nm a ++ " + " ++ render nm b
  | Expr.binop Op.pow a b =>
      render nm a ++ "^" ++
        (if nodeCount b > 1 then "(" ++ render nm b ++ ")" else render nm b)
  | Expr.binop Op.mul a b => render nm a ++ "*" ++ render nm b
  | Expr.binop Op.sub a b => render nm a ++ " - " ++ render nm b
  | Expr.binop Op.div a b => render nm a ++ "/" ++ render nm b
  | Expr.log a => "log(" ++ render nm a ++ ")"

/-- The naming function for the spec's rendering scenarios: symbol 0 is
"x", symbol 1 is "y". -/
def demoNames (n : Nat) : String :=
  if n = 0 then "x" else if n = 1 then "y" else "z"

/-!
The tensor layer (linalg.hpp).  A `tensor<T, shape>` holds a flat
`std::array<T, shape::count>` of scalars in row-major order, where
`shape::count` is the product of the per-axis extents; operators visit all
multi-indices of the shape, each resolving to a distinct flat offset, so we
model the elementwise traversals directly over the flat store.
-/

/-- A tensor: a shape (per-axis extents) plus the dense row-major flat
store of its scalar elements. -/
structure Tensor where
  shape : List Nat
  values : List Int
deriving DecidableEq, Repr

/-- The invariant the C++ type system enforces: the flat store holds
exactly `product(shape)` scalars. -/
def Tensor.wf (t : Tensor) : Prop := t.values.length = t.shape.prod

/-- The row-major flat offset of a multi-index (linalg.hpp
`as_flat_index_in`): `offset = Σ idx[k] * Π extent[k+1..]`. -/
def flatIndex : List Nat → List Nat → Nat
  | _, [] => 0
  | sh, i :: is => i * (sh.drop 1).prod + flatIndex (sh.drop 1) is

/-- `addition_of<T1, T2>` (linalg.hpp): constrained to tensors of equal
shape, in which case every element of the result is the sum of the
corresponding elements of the operands.  The shape constraint is a
`requires` clause, so mismatched shapes reject the construction; we model
rejection as `none`. -/
def tensorAdd (A B : Tensor) : Option Tensor :=
  if A.shape = B.shape then
    some ⟨A.shape, List.zipWith (· + ·) A.values B.values⟩
  else none

/-- `multiplication_of<T1, T2>` for two tensors (linalg.hpp): constrained
to equal shapes, producing the scalar `Σ_idx A[idx] * B[idx]` accumulated
over all multi-indices. -/
def tensorMul (A B : Tensor) : Option Int :=
  if A.shape = B.shape then
    some (List.zipWith (· * ·) A.values B.values).sum
  else none

/-- `tensor::operator==` (linalg.hpp): if the shapes differ the comparison
is `false`; otherwise every multi-index of the shape is visited and the
result is `true` exactly when all corresponding elements compare equal. -/
def tensorEq (A B : Tensor) : Bool :=
  if A.shape = B.shape then
    (List.range A.shape.prod).all
      (fun k => A.values.getD k 0 == B.values.getD k 0)
  else false

/-! Helper lemmas shared by the proofs below. -/

/-- Appending the zero value on the right of `addE` returns the left
operand unchanged. -/
theorem addE_zero_right (a : Expr) : addE a (Expr.val 0) = a := by
  unfold addE
  by_cases h : a = Expr.val 0 <;> simp [h]

/-- The zero value annihilates `mulE` on the right. -/
theorem mulE_zero_right (a : Expr) : mulE a (Expr.val 0) = Expr.val 0 := by
  simp [mulE]

/-- Reading an entry of a zipWith of two lists at an in-bounds position
gives the combination of the entries of the operands. -/
theorem zipWith_getD (f : Int → Int → Int) :
    ∀ (xs ys : List Int) (k : Nat), k < xs.length → k < ys.length →
      (List.zipWith f xs ys).getD k 0 = f (xs.getD k 0) (ys.getD k 0) := by
  intro xs
  induction xs with
  | nil => intro ys k h _; exact absurd h (by simp)
  | cons x xs ih =>
    intro ys k h1 h2
    cases ys with
    | nil => exact absurd h2 (by simp)
    | cons y ys =>
      cases k with
      | zero => simp
      | succ k =>
        simp only [List.zipWith_cons_cons, List.getD_cons_succ]
        exact ih ys k (by simpa using h1) (by simpa using h2)

/-- The sum of the elementwise products of two equal-length lists is the
sum over all positions of the products of corresponding entries. -/
theorem zipWith_mul_sum :
    ∀ (xs ys : List Int), xs.length = ys.length →
      (List.zipWith (· * ·) xs ys).sum =
        ∑ k ∈ Finset.range xs.length, xs.getD k 0 * ys.getD k 0 := by
  intro xs
  induction xs with
  | nil => intro ys h; simp
  | cons x xs ih =>
    intro ys h
    cases ys with
    | nil => exact absurd h (by simp)
    | cons y ys =>
      have h' : xs.length = ys.length := by simpa using h
      simp only [List.zipWith_cons_cons, List.sum_cons, List.length_cons]
      rw [Finset.sum_range_succ']
      simp only [List.getD_cons_succ, List.getD_cons_zero]
      rw [ih ys h']
      ring

/-! Claim theorems. -/

/-- C3: for every expression `a`, constructing `a + zero` yields `a` and
constructing `zero + a` yields `a`; no composite add node is allocated. -/
theorem add_zero_both_sides (a : Expr) :
    addE a (Expr.val 0) = a ∧ addE (Expr.val 0) a = a := by
  constructor
  · exact addE_zero_right a
  · simp [addE]

/-- C4: for every expression `a` other than the zero value, constructing
`a + a` yields the expression `2 * a` (built through the multiplication
construction path), not a generic add node. -/
theorem add_self_doubles (a : Expr) (h : a ≠ Expr.val 0) :
    addE a a = mulE (Expr.val 2) a ∧
    addE a a ≠ Expr.binop Op.add a a := by
  have h2 : addE a a = mulE (Expr.val 2) a := by simp [addE, h]
  refine ⟨h2, ?_⟩
  rw [h2]
  unfold mulE
  by_cases h1 : a = Expr.val 1 <;> simp [h, h1]

/-- Witness for C4 at the concrete symbol `var 0`. -/
theorem add_self_doubles_witness :
    addE (Expr.var 0) (Expr.var 0) = mulE (Expr.val 2) (Expr.var 0) ∧
    addE (Expr.var 0) (Expr.var 0) ≠ Expr.binop Op.add (Expr.var 0) (Expr.var 0) :=
  add_self_doubles (Expr.var 0) (by decide)

/-- C10: the pow factory checks the zero base before the zero exponent, so
a zero base wins for every exponent and in particular `pow(zero, zero)`
constructs to the zero value, which is distinct from the unit value. -/
theorem pow_zero_base_wins (b : Expr) :
    powE (Expr.val 0) b = Expr.val 0 ∧
    powE (Expr.val 0) (Expr.val 0) = Expr.val 0 ∧
    powE (Expr.val 0) (Expr.val 0) ≠ Expr.val 1 := by
  refine ⟨by simp [powE], by decide, by decide⟩

/-- Counterexample to C2 as stated: the identity `pow(a, zero) ≡ unit`
fails at `a = zero`, where the factory returns the zero value instead. -/
theorem pow_zero_exp_not_unit_at_zero :
    powE (Expr.val 0) (Expr.val 0) ≠ Expr.val 1 ∧
    powE (Expr.val 0) (Expr.val 0) = Expr.val 0 := by decide

/-- C2 (amended): `pow(a, unit) = a` for every `a`; `pow(a, zero) = unit`
for every nonzero `a`; `pow(zero, b) = zero` for nonzero `b`; and
`pow(unit, b) = unit` for every `b`. -/
theorem pow_identities (a b : Expr) :
    powE a (Expr.val 1) = a ∧
    (a ≠ Expr.val 0 → powE a (Expr.val 0) = Expr.val 1) ∧
    (b ≠ Expr.val 0 → powE (Expr.val 0) b = Expr.val 0) ∧
    powE (Expr.val 1) b = Expr.val 1 := by
  refine ⟨?_, ?_, ?_, ?_⟩
  · unfold powE
    by_cases h : a = Expr.val 0 <;> simp [h]
  · intro h
    unfold powE
    by_cases h1 : a = Expr.val 1 <;> simp [h, h1]
  · intro _
    simp [powE]
  · simp [powE]

/-- Witness for C2's hypothesised conjuncts at concrete inputs. -/
theorem pow_identities_witness :
    powE (Expr.var 0) (Expr.val 0) = Expr.val 1 ∧
    powE (Expr.val 0) (Expr.var 1) = Expr.val 0 :=
  ⟨(pow_identities (Expr.var 0) (Expr.var 1)).2.1 (by decide),
   (pow_identities (Expr.var 0) (Expr.var 1)).2.2.1 (by decide)⟩

/-- C5: the derivative of a generic add node is the sum of the derivatives
of its operands, built through the `addE` construction path, so a zero
summand in the derivative is dropped automatically. -/
theorem add_deriv_sum_rule (a b : Expr) (v : Nat) :
    deriv (Expr.binop Op.add a b) v = addE (deriv a v) (deriv b v) ∧
    (deriv a v = Expr.val 0 → deriv (Expr.binop Op.add a b) v = deriv b v) ∧
    (deriv b v = Expr.val 0 → deriv (Expr.binop Op.add a b) v = deriv a v) := by
  refine ⟨rfl, ?_, ?_⟩
  · intro h
    show addE (deriv a v) (deriv b v) = deriv b v
    rw [h]
    simp [addE]
  · intro h
    show addE (deriv a v) (deriv b v) = deriv a v
    rw [h]
    exact addE_zero_right _

/-- Witness for C5 at concrete inputs whose left (resp. right) summand has
a zero derivative. -/
theorem add_deriv_sum_rule_witness :
    deriv (Expr.binop Op.add (Expr.var 1) (Expr.var 0)) 0 = deriv (Expr.var 0) 0 ∧
    deriv (Expr.binop Op.add (Expr.var 0) (Expr.var 1)) 0 = deriv (Expr.var 0) 0 :=
  ⟨(add_deriv_sum_rule (Expr.var 1) (Expr.var 0) 0).2.1 (by decide),
   (add_deriv_sum_rule (Expr.var 0) (Expr.var 1) 0).2.2 (by decide)⟩

/-- C1: for a pow node built as a generic composite, the derivative with
respect to `v` is `b * a^(b - 1) * d(a) + a^b * log(b) * d(b)`, with the
logarithm taken of the exponent `b`; moreover when the exponent is a
constant the second term vanishes through the zero-derivative rule. -/
theorem pow_deriv_generalized_rule (a b : Expr) (v : Nat)
    (h : powE a b = Expr.binop Op.pow a b) :
    deriv (powE a b) v =
      addE (mulE (mulE b (powE a (subE b (Expr.val 1)))) (deriv a v))
           (mulE (mulE (powE a b) (logE b)) (deriv b v)) ∧
    (∀ c : Int, deriv (Expr.binop Op.pow a (Expr.val c)) v =
      mulE (mulE (Expr.val c) (powE a (subE (Expr.val c) (Expr.val 1))))
        (deriv a v)) := by
  constructor
  · conv_lhs => rw [h]
    show addE (mulE (mulE b (powE a (subE b (Expr.val 1)))) (deriv a v))
           (mulE (mulE (powE a b) (logE b)) (deriv b v)) = _
    rfl
  · intro c
    show addE (mulE (mulE (Expr.val c)
        (powE a (subE (Expr.val c) (Expr.val 1)))) (deriv a v))
      (mulE (mulE (powE a (Expr.val c)) (logE (Expr.val c)))
        (deriv (Expr.val c) v)) = _
    rw [show deriv (Expr.val c) v = Expr.val 0 from rfl, mulE_zero_right,
      addE_zero_right]

/-- Witness for C1 at the generic node `pow(var 0, var 1)`. -/
theorem pow_deriv_generalized_rule_witness :
    deriv (powE (Expr.var 0) (Expr.var 1)) 0 =
      addE (mulE (mulE (Expr.var 1)
             (powE (Expr.var 0) (subE (Expr.var 1) (Expr.val 1))))
             (deriv (Expr.var 0) 0))
           (mulE (mulE (powE (Expr.var 0) (Expr.var 1)) (logE (Expr.var 1)))
             (deriv (Expr.var 1) 0)) :=
  (pow_deriv_generalized_rule (Expr.var 0) (Expr.var 1) 0 (by decide)).1

/-- C9: a generic pow node renders as base, caret, exponent, with the
exponent parenthesized exactly when it has more than one node; an add node
renders as left operand, " + ", right operand.  Concretely, `pow(y, 2)`
renders its single-node exponent bare, `pow(x, y + 1)` parenthesizes its
three-node exponent, and `x + pow(y, 2)` puts `x` before the plus sign. -/
theorem render_rules (nm : Nat → String) (a b c d : Expr) :
    render nm (Expr.binop Op.pow a b) =
      render nm a ++ "^" ++
        (if nodeCount b > 1 then "(" ++ render nm b ++ ")" else render nm b) ∧
    render nm (Expr.binop Op.add c d) = render nm c ++ " + " ++ render nm d ∧
    render demoNames (Expr.binop Op.pow (Expr.var 1) (Expr.val 2)) = "y^2" ∧
    render demoNames
      (Expr.binop Op.pow (Expr.var 0)
        (Expr.binop Op.add (Expr.var 1) (Expr.val 1))) = "x^(y + 1)" ∧
    render demoNames
      (Expr.binop Op.add (Expr.var 0)
        (Expr.binop Op.pow (Expr.var 1) (Expr.val 2))) = "x + y^2" := by
  refine ⟨rfl, rfl, ?_, ?_, ?_⟩ <;> rfl

/-- The concrete (2,2) tensor with elements [1,2,3,4] from the spec's
shape-mismatch scenario. -/
def tA : Tensor := { shape := [2, 2], values := [1, 2, 3, 4] }

/-- The concrete (2,2) tensor with elements [4,3,2,1]. -/
def tB : Tensor := { shape := [2, 2], values := [4, 3, 2, 1] }

/-- The expected elementwise sum of `tA` and `tB`. -/
def tC : Tensor := { shape := [2, 2], values := [5, 5, 5, 5] }

/-- A tensor of a different shape, to exercise shape-mismatch rejection. -/
def tD : Tensor := { shape := [2], values := [1, 2] }

/-- C6: tensor addition is defined exactly for equal shapes; the result
keeps that shape, satisfies the size invariant, and every element is the
sum of the corresponding elements of the operands; differing shapes are
rejected at construction. -/
theorem tensorAdd_spec (A B : Tensor) (hA : A.wf) (hB : B.wf) :
    ((tensorAdd A B).isSome ↔ A.shape = B.shape) ∧
    (∀ C, tensorAdd A B = some C →
      C.shape = A.shape ∧ C.wf ∧
      ∀ k, k < A.shape.prod →
        C.values.getD k 0 = A.values.getD k 0 + B.values.getD k 0) := by
  unfold tensorAdd
  by_cases h : A.shape = B.shape
  · rw [if_pos h]
    refine ⟨by simp [h], ?_⟩
    rintro C hC
    obtain rfl : (⟨A.shape, List.zipWith (· + ·) A.values B.values⟩ : Tensor) = C :=
      Option.some.inj hC
    refine ⟨rfl, ?_, ?_⟩
    · show (List.zipWith (· + ·) A.values B.values).length = A.shape.prod
      rw [List.length_zipWith, hA, hB, h, Nat.min_self]
    · intro k hk
      exact zipWith_getD _ A.values B.values k (by rw [hA]; exact hk)
        (by rw [hB, ← h]; exact hk)
  · rw [if_neg h]
    exact ⟨by simp [h], by intro C hC; cases hC⟩

/-- Witness for C6: the spec's (2,2) scenario sums to [5,5,5,5] and a
shape mismatch is rejected. -/
theorem tensorAdd_spec_witness :
    tensorAdd tA tB = some tC ∧
    (∀ k, k < tA.shape.prod →
      tC.values.getD k 0 = tA.values.getD k 0 + tB.values.getD k 0) ∧
    tensorAdd tA tD = none :=
  ⟨by decide,
   fun k hk =>
     ((tensorAdd_spec tA tB rfl rfl).2 tC (by decide)).2.2 k hk,
   by decide⟩

/-- C7: multiplying two tensors of identical shape contracts them to the
single scalar that sums, over every position of the flat row-major store
(one per multi-index of the shape), the product of corresponding
elements. -/
theorem tensorMul_spec (A B : Tensor) (hA : A.wf) (hB : B.wf)
    (h : A.shape = B.shape) :
    tensorMul A B =
      some (∑ k ∈ Finset.range A.shape.prod,
        A.values.getD k 0 * B.values.getD k 0) := by
  unfold tensorMul
  rw [if_pos h]
  have hlen : A.values.length = B.values.length := by rw [hA, hB, h]
  rw [zipWith_mul_sum A.values B.values hlen, hA]

/-- Witness for C7 at the concrete (2,2) tensors; the contraction of `tA`
with `tB` is the scalar 20. -/
theorem tensorMul_spec_witness :
    tensorMul tA tB =
      some (∑ k ∈ Finset.range tA.shape.prod,
        tA.values.getD k 0 * tB.values.getD k 0) ∧
    tensorMul tA tB = some 20 ∧
    tensorMul tA tD = none :=
  ⟨tensorMul_spec tA tB rfl rfl rfl, by decide, by decide⟩

/-- C8: tensor equality is `true` exactly when the shapes agree and the
flat stores agree elementwise (equivalently, as equal-length lists, are
equal); differing shapes compare `false`, a defined result rather than an
error. -/
theorem tensorEq_spec (A B : Tensor) (hA : A.wf) (hB : B.wf) :
    (tensorEq A B = true ↔ A.shape = B.shape ∧ A.values = B.values) ∧
    (A.shape ≠ B.shape → tensorEq A B = false) := by
  constructor
  · constructor
    · intro ht
      unfold tensorEq at ht
      by_cases h : A.shape = B.shape
      · refine ⟨h, ?_⟩
        rw [if_pos h] at ht
        have hlen : A.values.length = B.values.length := by rw [hA, hB, h]
        apply List.ext_getElem hlen
        intro i h1 h2
        have hi : i ∈ List.range A.shape.prod :=
          List.mem_range.mpr (by rw [← hA]; exact h1)
        have hbeq := List.all_eq_true.mp ht i hi
        have : A.values.getD i 0 = B.values.getD i 0 := by
          simpa using hbeq
        rwa [List.getD_eq_getElem _ _ h1, List.getD_eq_getElem _ _ h2] at this
      · rw [if_neg h] at ht
        cases ht
    · rintro ⟨h, hv⟩
      unfold tensorEq
      rw [if_pos h]
      refine List.all_eq_true.mpr ?_
      intro k _
      rw [hv]
      simp
  · intro h
    unfold tensorEq
    rw [if_neg h]

/-- Witness for C8: a tensor equals itself, equality across differing
shapes is false, and equal shapes with differing elements compare
false. -/
theorem tensorEq_spec_witness :
    tensorEq tA tA = true ∧ tensorEq tA tD = false ∧ tensorEq tA tB = false :=
  ⟨((tensorEq_spec tA tA rfl rfl).1).mpr ⟨rfl, rfl⟩,
   (tensorEq_spec tA tD rfl rfl).2 (by decide),
   by decide⟩

end Xpress
